import Mathlib

/-!
Shallow embedding of the `sisl-new-crm` repository (Django CRM application),
covering the code that the specification's claims are about:

* `crm/models.py` — `Lead.save` (lead-number generation, weighted value,
  approval flag), the `lead_number` column's `unique=True` constraint;
* `crm/signals.py` — `lead_pre_save`, `contact_company_history_post_save`;
* `crm/views.py` — `ContactUpdateView.form_valid`, `lead_approve_view`;
* `crm/forms.py` — `ContactForm.clean_phone` / `clean` /
  `DocumentUploadForm.clean_file`;
* `crm/services/manager_api.py` — `_fetch_all_inventory_items`,
  `sync_products`, `_get_or_create_category`.

Python strings are embedded as `List Char` (Python string comparison and
slicing are character-wise), `Decimal` values as `ℚ`, nullable columns as
`Option`, and database tables as Lean lists of structures.
-/

namespace SislCrm

/-! ### Lead model (`crm/models.py`, `Lead`) -/

/-- A row of `LeadStatus` (`crm/models.py`): only the primary key and the
`requires_approval` flag matter for the claims; Django compares foreign keys
by primary key. -/
structure LeadStatusR where
  sid : Nat
  requires_approval : Bool
deriving DecidableEq, Repr

/-- The fields of a `Lead` row that `Lead.save`, the `lead_pre_save` signal
and `lead_approve_view` read or write.  `estimated_value` and
`weighted_value` are nullable `DecimalField`s (`Option ℚ`); `probability` is
a non-nullable `IntegerField`; `approved_by` / `approved_at` are the nullable
approver FK and timestamp. -/
structure Lead where
  estimated_value : Option ℚ
  probability : Int
  weighted_value : Option ℚ
  status : Option LeadStatusR
  requires_approval : Bool
  approved_by : Option Nat
  approved_at : Option Nat
  approval_notes : String
deriving DecidableEq, Repr

/-- Python truthiness of a nullable `Decimal`: `None` and `0` are falsy. -/
def truthyQ : Option ℚ → Bool
  | none => false
  | some v => v != 0

/-- Truthiness of `self.status and self.status.requires_approval`. -/
def statusRequiresApproval : Option LeadStatusR → Bool
  | none => false
  | some s => s.requires_approval

/-- First statement of `Lead.save` (`crm/models.py` lines 464-466):

    if self.estimated_value and self.probability:
        self.weighted_value = self.estimated_value * (self.probability / 100)

`self.probability / 100` is Python 3 true division, a `float`.  Every
present `estimated_value` in this program is a `decimal.Decimal`: the field
is a `DecimalField`, written only through `LeadForm`/the admin form (whose
cleaned value is a `Decimal`) or loaded from the database; the repository
assigns it nowhere else.  `Decimal * float` is unsupported and raises
`TypeError`, so whenever the truthiness guard passes the statement raises
and the save aborts; otherwise `weighted_value` is left unchanged. -/
def leadApplyWeighted (l : Lead) : Except String Lead :=
  if truthyQ l.estimated_value && (l.probability != 0) then
    Except.error "TypeError"
  else Except.ok l

/-- Second statement of `Lead.save` (`crm/models.py` lines 469-470):

    if self.status and self.status.requires_approval:
        self.requires_approval = True
-/
def leadApplyFlag (l : Lead) : Lead :=
  if statusRequiresApproval l.status then { l with requires_approval := true }
  else l

/-- The body of `Lead.save`, without the lead-number generation (modelled
separately as `createLead`, since it reads the lead table).  When the
weighted-value statement raises, the flag statement and `super().save()`
never run and nothing is stored. -/
def leadModelSave (l : Lead) : Except String Lead :=
  (leadApplyWeighted l).map leadApplyFlag

/-- The `lead_pre_save` signal (`crm/signals.py` lines 87-100), which
`super().save()` emits before writing an existing lead (`instance.pk` set);
`old` is the stored row:

    if instance.status != old_lead.status and instance.status
            and instance.status.requires_approval:
        instance.requires_approval = True
        if old_lead.approved_by:
            instance.approved_by = None
            instance.approved_at = None
-/
def leadPreSaveSignal (old li : Lead) : Lead :=
  if li.status ≠ old.status ∧ statusRequiresApproval li.status then
    let i1 := { li with requires_approval := true }
    if old.approved_by.isSome then { i1 with approved_by := none, approved_at := none }
    else i1
  else li

/-- Saving an existing lead: the custom `save` body runs first; if it
completes, `super().save()` emits the `pre_save` signal and writes the
result.  If the body raises, no signal fires and the stored row keeps its
old values. -/
def leadUpdateSave (old li : Lead) : Except String Lead :=
  (leadModelSave li).map (leadPreSaveSignal old)

/-- Saving a new lead: the `pre_save` signal is a no-op (`instance.pk` is not
set), so only the model's `save` body matters. -/
def leadCreateSave (li : Lead) : Except String Lead :=
  leadModelSave li

/-- `lead_approve_view` (`crm/views.py` lines 639-657) on POST: sets the
approval fields and saves. -/
def leadApprove (stored : Lead) (approver : Nat) (now : Nat) (notes : String) :
    Except String Lead :=
  leadUpdateSave stored
    { stored with approved_by := some approver, approved_at := some now,
                  approval_notes := notes }

/-- A lead with value 200 (a `Decimal` on every program path) and
probability 50, as any lead edited through `LeadForm` with both fields
filled in. -/
def w1Lead : Lead :=
  { estimated_value := some 200, probability := 50, weighted_value := none,
    status := none, requires_approval := false, approved_by := none,
    approved_at := none, approval_notes := "" }

/-- C1 (code bug): on any lead save in which both `estimated_value` and
`probability` are present and truthy — the only case in which the claimed
computation is attempted — `Lead.save` raises `TypeError` at
`crm/models.py` line 466 (`Decimal * float`) and stores nothing, instead of
storing `estimated_value × probability / 100` as the claim (and the code's
own comment, "Calculate weighted value") intends. -/
theorem c1_save_raises :
    w1Lead.estimated_value = some 200 ∧ w1Lead.probability = 50 ∧
    leadCreateSave w1Lead = Except.error "TypeError" ∧
    leadUpdateSave w1Lead w1Lead = Except.error "TypeError" := by
  refine ⟨rfl, rfl, rfl, rfl⟩

/-- A lead approved while in a status (id 1) that does not require
approval; its `estimated_value` is absent, so its saves complete. -/
def c4Old : Lead :=
  { estimated_value := none, probability := 0, weighted_value := none,
    status := some { sid := 1, requires_approval := false },
    requires_approval := false, approved_by := some 7, approved_at := some 5,
    approval_notes := "ok" }

/-- The same lead re-saved with only its status changed to a status (id 2)
that requires approval; the approval fields are carried over unchanged by
the caller. -/
def c4New : Lead :=
  { c4Old with status := some { sid := 2, requires_approval := true } }

/-- The row that save stores. -/
def c4Res : Lead :=
  { c4New with
      requires_approval := true, approved_by := none, approved_at := none }

/-- C4 counterexample: a lead whose approval is satisfied
(`approved_by = 7`, `approved_at = 5`, `approval_notes = "ok"`) is saved
again with only its status changed to an approval-requiring status; the
save completes (no weighted-value computation is attempted) and the
`lead_pre_save` signal resets `approved_by` and `approved_at` to `None`, so
the approval fields are not immutable under subsequent saves. -/
theorem c4_counterexample :
    c4Old.approved_by = some 7 ∧ c4Old.approved_at = some 5 ∧
    c4Old.approval_notes = "ok" ∧
    c4New.approved_by = c4Old.approved_by ∧
    c4New.approved_at = c4Old.approved_at ∧
    c4New.approval_notes = c4Old.approval_notes ∧
    leadUpdateSave c4Old c4New = Except.ok c4Res ∧
    c4Res.approved_by ≠ some 7 := by
  refine ⟨rfl, rfl, rfl, rfl, rfl, rfl, by rfl, ?_⟩
  decide

/-- C4 (amended): for every save of an existing lead that completes (a save
whose weighted-value statement raises `TypeError` stores nothing, so the
stored fields trivially survive it): the approval-requirement flag is copied
from the status (`requires_approval` becomes true whenever the saved status
requires approval), and once the approval is satisfied the three approval
fields survive the save **except** when it changes the lead's status to a
different status requiring approval; such a save clears `approved_by` and
`approved_at` (but keeps `approval_notes`). -/
theorem c4_approval_fields (old li : Lead)
    (hby : li.approved_by = old.approved_by)
    (hat : li.approved_at = old.approved_at)
    (hnotes : li.approval_notes = old.approval_notes)
    (hsat : old.approved_by.isSome = true)
    (res : Lead) (hres : leadUpdateSave old li = Except.ok res) :
    (statusRequiresApproval li.status = true → res.requires_approval = true) ∧
    res.approval_notes = old.approval_notes ∧
    ((li.status = old.status ∨ statusRequiresApproval li.status = false) →
      res.approved_by = old.approved_by ∧ res.approved_at = old.approved_at) ∧
    (li.status ≠ old.status → statusRequiresApproval li.status = true →
      res.approved_by = none ∧ res.approved_at = none) := by
  have hres' : res = leadPreSaveSignal old (leadApplyFlag li) := by
    unfold leadUpdateSave leadModelSave leadApplyWeighted at hres
    by_cases hguard : (truthyQ li.estimated_value && (li.probability != 0)) = true
    · rw [if_pos hguard] at hres
      simp [Except.map] at hres
    · rw [if_neg hguard] at hres
      simp only [Except.map, Except.ok.injEq] at hres
      exact hres.symm
  subst hres'
  have hflag : (leadApplyFlag li).status = li.status ∧
      (leadApplyFlag li).approved_by = li.approved_by ∧
      (leadApplyFlag li).approved_at = li.approved_at ∧
      (leadApplyFlag li).approval_notes = li.approval_notes ∧
      (statusRequiresApproval li.status = true →
        (leadApplyFlag li).requires_approval = true) := by
    unfold leadApplyFlag
    split_ifs <;> simp_all
  obtain ⟨hst, hb, ha, hn, hf⟩ := hflag
  by_cases hcond : li.status ≠ old.status ∧ statusRequiresApproval li.status = true
  · have hsig : leadPreSaveSignal old (leadApplyFlag li) =
        { leadApplyFlag li with
            requires_approval := true, approved_by := none, approved_at := none } := by
      unfold leadPreSaveSignal
      have hcond2 : (leadApplyFlag li).status ≠ old.status ∧
          statusRequiresApproval (leadApplyFlag li).status = true := by
        rw [hst]
        exact hcond
      rw [if_pos hcond2, if_pos hsat]
    rw [hsig]
    refine ⟨fun _ => rfl, ?_, ?_, fun _ _ => ⟨rfl, rfl⟩⟩
    · show (leadApplyFlag li).approval_notes = old.approval_notes
      rw [hn]
      exact hnotes
    · rintro (hs | hs)
      · exact absurd hs hcond.1
      · rw [hcond.2] at hs
        cases hs
  · have hsig : leadPreSaveSignal old (leadApplyFlag li) = leadApplyFlag li := by
      unfold leadPreSaveSignal
      have hcond2 : ¬ ((leadApplyFlag li).status ≠ old.status ∧
          statusRequiresApproval (leadApplyFlag li).status = true) := by
        rw [hst]
        exact hcond
      rw [if_neg hcond2]
    rw [hsig]
    refine ⟨fun hreq => hf hreq, (by rw [hn]; exact hnotes),
      fun _ => ⟨(by rw [hb]; exact hby), (by rw [ha]; exact hat)⟩, ?_⟩
    intro hne hreq
    exact absurd ⟨hne, hreq⟩ hcond

/-- Witness for `c4_approval_fields`: a re-save of `c4Old` that keeps its
status completes and leaves the approval fields intact. -/
theorem c4_approval_fields_witness :
    c4Old.approved_by = c4Old.approved_by ∧
    c4Old.approved_at = c4Old.approved_at :=
  (c4_approval_fields c4Old c4Old rfl rfl rfl (by decide) c4Old
    (by rfl)).2.2.1 (Or.inl rfl)

/-! ### Lead-number generation (`crm/models.py`, `Lead.save` lines 452-462)

A lead number is `f"LEAD-{YYYYMM}-{new_number:04d}"`.  The query
`filter(lead_number__startswith=prefix)` scopes the generation to the
creation month: all numbers of one month share the 12-character prefix
`LEAD-YYYYMM-`, and no number of another month matches it, so the
`order_by('-lead_number')` string comparison reduces to comparison of the
digit suffixes.  Suffix strings are embedded as lists of digit values
(`List Nat`): Python compares ASCII digit characters exactly like their
values, and a shorter string that is a prefix of a longer one compares
smaller, which `digitsLt` reproduces.  The `lead_number` column is declared
`unique=True`, so an INSERT with an already-assigned number raises an
`IntegrityError` and stores nothing (`createLead` leaves the table
unchanged).  `Lead.objects` is the default manager (no soft-delete
filtering), so every previously created lead stays visible to the query. -/

/-- Lexicographic comparison of digit strings (Python `str` `<` on the
suffixes after the common month prefix). -/
def digitsLt : List Nat → List Nat → Bool
  | _, [] => false
  | [], _ :: _ => true
  | a :: as, b :: bs =>
    if a < b then true else if b < a then false else digitsLt as bs

/-- Python `int()` of a decimal digit string. -/
def fromDigits (l : List Nat) : Nat :=
  l.foldl (fun a d => a * 10 + d) 0

/-- Decimal digits of `n`, most significant first, with structural fuel. -/
def digitsGo : Nat → Nat → List Nat
  | 0, _ => []
  | fuel + 1, n => if n < 10 then [n] else digitsGo fuel (n / 10) ++ [n % 10]

def natDigits (n : Nat) : List Nat :=
  digitsGo (n + 1) n

/-- Python `f"{n:04d}"`: zero-pad to width 4, plain decimal beyond. -/
def pad4 (n : Nat) : List Nat :=
  if n < 10000 then [n / 1000, n / 100 % 10, n / 10 % 10, n % 10]
  else natDigits n

/-- `order_by('-lead_number').first()` on the month's assigned numbers: the
maximum under string order (`none` when the month has no lead yet). -/
def maxLead (l : List (List Nat)) : Option (List Nat) :=
  l.foldl (fun acc x =>
    match acc with
    | none => some x
    | some m => if digitsLt m x then some x else some m) none

/-- The number generation of `Lead.save`:

    last_lead = Lead.objects.filter(...).order_by('-lead_number').first()
    if last_lead:
        new_number = int(last_lead.lead_number.split('-')[-1]) + 1
    else:
        new_number = 1
    self.lead_number = f"{prefix}-{new_number:04d}"
-/
def genNext (assigned : List (List Nat)) : List Nat :=
  match maxLead assigned with
  | none => pad4 1
  | some m => pad4 (fromDigits m + 1)

/-- One attempted lead creation in the month: generate the number, then
INSERT; the `unique=True` constraint rejects a duplicate (state unchanged,
the save raises). -/
def createLead (assigned : List (List Nat)) : List (List Nat) :=
  let num := genNext assigned
  if num ∈ assigned then assigned else num :: assigned

/-- The month's assigned numbers (newest first) after `n` attempted
creations, starting from an empty month. -/
def attemptState : Nat → List (List Nat)
  | 0 => []
  | n + 1 => createLead (attemptState n)

/-- The intended table contents: `pad4 n, …, pad4 1` (newest first). -/
def goodState : Nat → List (List Nat)
  | 0 => []
  | n + 1 => pad4 (n + 1) :: goodState n

theorem pad4_lt {a b : Nat} (ha : a < 10000) (hb : b < 10000) :
    digitsLt (pad4 a) (pad4 b) = true ↔ a < b := by
  simp only [pad4, if_pos ha, if_pos hb, digitsLt]
  split_ifs <;> simp <;> omega

theorem fromDigits_pad4 {n : Nat} (h : n < 10000) : fromDigits (pad4 n) = n := by
  simp only [pad4, if_pos h, fromDigits, List.foldl]
  omega

theorem digitsGo_succ (fuel n : Nat) :
    digitsGo (fuel + 1) n =
      if n < 10 then [n] else digitsGo fuel (n / 10) ++ [n % 10] := rfl

theorem pad4_10000 : pad4 10000 = [1, 0, 0, 0, 0] := by
  unfold pad4
  rw [if_neg (by omega)]
  unfold natDigits
  have e1 : digitsGo (10000 + 1) 10000 = digitsGo 10000 1000 ++ [0] := by
    rw [digitsGo_succ]
    norm_num
  have e2 : digitsGo 10000 1000 = digitsGo 9999 100 ++ [0] := by
    rw [show (10000 : Nat) = 9999 + 1 from rfl, digitsGo_succ]
    norm_num
  have e3 : digitsGo 9999 100 = digitsGo 9998 10 ++ [0] := by
    rw [show (9999 : Nat) = 9998 + 1 from rfl, digitsGo_succ]
    norm_num
  have e4 : digitsGo 9998 10 = digitsGo 9997 1 ++ [0] := by
    rw [show (9998 : Nat) = 9997 + 1 from rfl, digitsGo_succ]
    norm_num
  have e5 : digitsGo 9997 1 = [1] := by
    rw [show (9997 : Nat) = 9996 + 1 from rfl, digitsGo_succ]
    norm_num
  rw [e1, e2, e3, e4, e5]
  rfl

theorem goodState_succ (n : Nat) :
    goodState (n + 1) = pad4 (n + 1) :: goodState n := rfl

theorem goodState_10000 : goodState 10000 = pad4 10000 :: goodState 9999 := by
  rw [show (10000 : Nat) = 9999 + 1 from rfl, goodState_succ]

theorem goodState_9999 : goodState 9999 = pad4 9999 :: goodState 9998 := by
  rw [show (9999 : Nat) = 9998 + 1 from rfl, goodState_succ]

theorem fromDigits_pad4_le {n : Nat} (h : n ≤ 10000) : fromDigits (pad4 n) = n := by
  rcases Nat.lt_or_ge n 10000 with h' | h'
  · exact fromDigits_pad4 h'
  · have : n = 10000 := by omega
    subst this
    rw [pad4_10000]
    decide

theorem pad4_length {n : Nat} (h : n < 10000) : (pad4 n).length = 4 := by
  simp [pad4, if_pos h]

theorem mem_goodState {x : List Nat} :
    ∀ {n : Nat}, x ∈ goodState n → ∃ k, 1 ≤ k ∧ k ≤ n ∧ x = pad4 k := by
  intro n
  induction n with
  | zero => intro h; cases h
  | succ m ih =>
    intro h
    rcases List.mem_cons.mp h with h | h
    · exact ⟨m + 1, by omega, by omega, h⟩
    · obtain ⟨k, h1, h2, h3⟩ := ih h
      exact ⟨k, h1, by omega, h3⟩

theorem maxLead_keep (m : List Nat) :
    ∀ l : List (List Nat), (∀ x ∈ l, digitsLt m x = false) →
    l.foldl (fun acc x =>
      match acc with
      | none => some x
      | some m => if digitsLt m x then some x else some m) (some m) = some m := by
  intro l
  induction l with
  | nil => intro _; rfl
  | cons y l ih =>
    intro h
    rw [List.foldl_cons]
    have hy : digitsLt m y = false := h y (List.mem_cons_self y l)
    show List.foldl _ (if digitsLt m y then some y else some m) l = some m
    rw [hy]
    exact ih (fun x hx => h x (List.mem_cons_of_mem y hx))

theorem maxLead_goodState {n : Nat} (h1 : 1 ≤ n) (h2 : n ≤ 9999) :
    maxLead (goodState n) = some (pad4 n) := by
  obtain ⟨k, rfl⟩ : ∃ k, n = k + 1 := ⟨n - 1, by omega⟩
  show (goodState (k + 1)).foldl _ none = some (pad4 (k + 1))
  rw [goodState, List.foldl_cons]
  show (goodState k).foldl _ (some (pad4 (k + 1))) = some (pad4 (k + 1))
  apply maxLead_keep
  intro x hx
  obtain ⟨j, hj1, hj2, rfl⟩ := mem_goodState hx
  have : ¬ (digitsLt (pad4 (k + 1)) (pad4 j) = true) := by
    intro hlt
    have := (pad4_lt (by omega) (by omega)).mp hlt
    omega
  exact Bool.eq_false_iff.mpr this

theorem genNext_eq (assigned : List (List Nat)) (m : List Nat)
    (h : maxLead assigned = some m) :
    genNext assigned = pad4 (fromDigits m + 1) := by
  unfold genNext
  rw [h]

theorem maxLead_two_then_keep (a b : List Nat) (l : List (List Nat))
    (hab : digitsLt a b = true) (hl : ∀ x ∈ l, digitsLt b x = false) :
    maxLead (a :: b :: l) = some b := by
  show (a :: b :: l).foldl _ none = some b
  rw [List.foldl_cons, List.foldl_cons]
  show l.foldl _ (if digitsLt a b then some b else some a) = some b
  rw [hab]
  exact maxLead_keep b l hl

theorem attemptState_eq : ∀ n : Nat, attemptState n = goodState (min n 10000) := by
  intro n
  induction n with
  | zero => rfl
  | succ m ih =>
    rw [attemptState, ih]
    rcases Nat.lt_or_ge m 10000 with hm | hm
    · rw [Nat.min_eq_left (by omega)]
      rcases Nat.eq_zero_or_pos m with rfl | hpos
      · rw [Nat.min_eq_left (by omega)]
        rfl
      rcases Nat.lt_or_ge m 9999 with hm' | hm'
      · -- 1 ≤ m ≤ 9998: the generated number is fresh
        rw [Nat.min_eq_left (by omega)]
        have hgen : genNext (goodState m) = pad4 (m + 1) := by
          unfold genNext
          rw [maxLead_goodState hpos (by omega)]
          show pad4 (fromDigits (pad4 m) + 1) = pad4 (m + 1)
          rw [fromDigits_pad4 (by omega)]
        have hnotmem : pad4 (m + 1) ∉ goodState m := by
          intro hmem
          obtain ⟨k, hk1, hk2, hk3⟩ := mem_goodState hmem
          have : m + 1 = k := by
            have e1 := fromDigits_pad4 (show m + 1 < 10000 by omega)
            have e2 := fromDigits_pad4 (show k < 10000 by omega)
            rw [← e1, hk3, e2]
          omega
        unfold createLead
        rw [hgen, if_neg hnotmem]
        exact (goodState_succ m).symm
      · -- m = 9999: lead number 10000 is generated and stored
        have : m = 9999 := by omega
        subst this
        rw [Nat.min_eq_right (by omega)]
        have hgen : genNext (goodState 9999) = pad4 10000 := by
          rw [genNext_eq (goodState 9999) (pad4 9999)
            (maxLead_goodState (by omega) (by omega)), fromDigits_pad4 (by omega)]
        have hnotmem : pad4 10000 ∉ goodState 9999 := by
          intro hmem
          obtain ⟨k, hk1, hk2, hk3⟩ := mem_goodState hmem
          have h4 : (pad4 k).length = 4 := pad4_length (by omega)
          rw [← hk3, pad4_10000] at h4
          simp at h4
        unfold createLead
        rw [hgen, if_neg hnotmem]
        exact goodState_10000.symm
    · -- the table already holds 10000 numbers: every further attempt
      -- regenerates 10000 and the unique constraint rejects it
      rw [Nat.min_eq_right (by omega), Nat.min_eq_right (by omega)] at *
      have hmax : maxLead (goodState 10000) = some (pad4 9999) := by
        rw [goodState_10000, goodState_9999]
        apply maxLead_two_then_keep
        · rw [pad4_10000]
          decide
        · intro x hx
          obtain ⟨j, hj1, hj2, rfl⟩ := mem_goodState hx
          apply Bool.eq_false_iff.mpr
          intro hlt'
          have := (pad4_lt (by omega) (by omega)).mp hlt'
          omega
      have hgen : genNext (goodState 10000) = pad4 10000 := by
        rw [genNext_eq (goodState 10000) (pad4 9999) hmax, fromDigits_pad4 (by omega)]
      have hmem : pad4 10000 ∈ goodState 10000 := by
        rw [goodState_10000]
        exact List.mem_cons_self _ _
      unfold createLead
      rw [hgen, if_pos hmem]

theorem goodState_pairwise : ∀ n : Nat, n ≤ 10000 →
    ((goodState n).map fromDigits).Pairwise (fun a b => a > b) := by
  intro n
  induction n with
  | zero => intro _; simp [goodState]
  | succ m ih =>
    intro h
    rw [goodState, List.map_cons]
    refine List.Pairwise.cons ?_ (ih (by omega))
    intro y hy
    obtain ⟨x, hx, rfl⟩ := List.mem_map.mp hy
    obtain ⟨k, hk1, hk2, rfl⟩ := mem_goodState hx
    rw [fromDigits_pad4_le (by omega), fromDigits_pad4_le (by omega)]
    omega

theorem goodState_nodup (n : Nat) (h : n ≤ 10000) : (goodState n).Nodup := by
  have hp := goodState_pairwise n h
  have : ((goodState n).map fromDigits).Nodup :=
    hp.imp (fun hab => Nat.ne_of_gt hab)
  exact this.of_map fromDigits

theorem goodState_getLast : ∀ n : Nat, 1 ≤ n →
    (goodState n).getLast? = some (pad4 1) := by
  intro n
  induction n with
  | zero => intro h; omega
  | succ m ih =>
    intro _
    rcases Nat.eq_zero_or_pos m with rfl | hpos
    · rfl
    obtain ⟨j, rfl⟩ : ∃ j, m = j + 1 := ⟨m - 1, by omega⟩
    show (pad4 (j + 1 + 1) :: pad4 (j + 1) :: goodState j).getLast? = some (pad4 1)
    rw [List.getLast?_cons_cons]
    exact ih (by omega)

/-- C2: for every number `n` of attempted lead creations in one month
(starting from an empty month), the assigned lead numbers are pairwise
distinct, their numeric values are strictly decreasing from newest to oldest
(each new lead's number exceeds every previously assigned one), every
assigned number is the 4-zero-padded decimal of a value between 1 and 10000,
and the first assigned number is `0001`.  Numbers of different months differ
already in their `LEAD-YYYYMM-` prefix, so no two leads ever share a full
lead number. -/
theorem c2_lead_numbers (n : Nat) :
    (attemptState n).Nodup ∧
    ((attemptState n).map fromDigits).Pairwise (fun a b => a > b) ∧
    (∀ x ∈ attemptState n, ∃ k, 1 ≤ k ∧ k ≤ 10000 ∧ x = pad4 k) ∧
    (1 ≤ n → (attemptState n).getLast? = some (pad4 1)) := by
  rw [attemptState_eq]
  refine ⟨goodState_nodup _ (by omega), goodState_pairwise _ (by omega),
    fun x hx => ?_, fun h => goodState_getLast _ (by omega)⟩
  obtain ⟨k, h1, h2, h3⟩ := mem_goodState hx
  exact ⟨k, h1, by omega, h3⟩

/-- Witness for `c2_lead_numbers`: after three creations the oldest lead
number is `0001`. -/
theorem c2_lead_numbers_witness :
    (attemptState 3).getLast? = some (pad4 1) :=
  (c2_lead_numbers 3).2.2.2 (by omega)

/-! ### Contact form (`crm/forms.py`, `ContactForm`) -/

/-- The `'+880'` country prefix that `clean_phone` prepends. -/
def bdPrefix : List Char := ['+', '8', '8', '0']

/-- `ContactForm.clean_phone` (`crm/forms.py` lines 82-91):

    phone = phone.replace(' ', '').replace('-', '')
    if not phone.startswith('+'):
        phone = '+880' + phone.lstrip('0')

run only when `phone` is truthy (non-empty). -/
def cleanPhone (phone : List Char) : List Char :=
  if phone = [] then phone
  else
    match (phone.filter (fun c => c ≠ ' ')).filter (fun c => c ≠ '-') with
    | '+' :: rest => '+' :: rest
    | p1 => bdPrefix ++ p1.dropWhile (fun c => c = '0')

/-- `ContactForm.clean_email`: lowercases a truthy email (lowercasing `''`
is the identity, so the truthiness guard is immaterial). -/
def cleanEmail (email : List Char) : List Char :=
  email.map Char.toLower

/-- Validation of a `ContactForm` submission, restricted to the phone and
email inputs.  `Contact.phone` (`crm/models.py` line 219) is a `CharField`
without `blank=True`, so the generated form field is **required**: an empty
phone fails Django's field-level validation regardless of the email
(`email` is `blank=True`, hence optional).  With a non-empty phone,
`clean_phone` normalises it and `ContactForm.clean`
(`crm/forms.py` lines 100-110) raises only when both cleaned values are
falsy.  `none` = rejected submission; a field-level error and the
cross-field `ValidationError` both reject, so one `none` covers both. -/
def contactFormClean (phone email : List Char) : Option (List Char × List Char) :=
  if phone = [] then none
  else if cleanPhone phone = [] ∧ cleanEmail email = [] then none
  else some (cleanPhone phone, cleanEmail email)

theorem cleanPhone_eq_nil_iff (phone : List Char) :
    cleanPhone phone = [] ↔ phone = [] := by
  constructor
  · intro h
    by_contra hne
    unfold cleanPhone at h
    rw [if_neg hne] at h
    revert h
    split <;> simp [bdPrefix]
  · rintro rfl
    rfl

/-- C8 counterexample: a submission with an empty phone and a non-empty
email is rejected — `phone` is a required form field (the model field has no
`blank=True`) — although not both identifier fields are empty, contradicting
"rejected exactly when both the phone field and the email field are
empty". -/
theorem c8_counterexample :
    contactFormClean [] "a@b.c".data = none ∧
    ¬ (([] : List Char) = [] ∧ "a@b.c".data = []) := by
  refine ⟨rfl, ?_⟩
  decide

/-- C8 (amended): a contact-form submission is rejected exactly when the
phone field is empty — the phone field is required, and a non-empty phone
always satisfies the phone-or-email cross-check in `clean` (cleaning never
empties a non-empty phone) — and every accepted submission carries a
non-empty phone number (hence a phone or an email). -/
theorem c8_contact_phone_required (phone email : List Char) :
    (contactFormClean phone email = none ↔ phone = []) ∧
    ∀ pe, contactFormClean phone email = some pe → pe.1 ≠ [] := by
  unfold contactFormClean
  by_cases hp : phone = []
  · rw [if_pos hp]
    exact ⟨⟨fun _ => hp, fun _ => rfl⟩, fun pe hpe => by cases hpe⟩
  · rw [if_neg hp]
    have hcp : cleanPhone phone ≠ [] := fun h => hp ((cleanPhone_eq_nil_iff phone).1 h)
    rw [if_neg (fun h => hcp h.1)]
    refine ⟨⟨fun h => (by cases h), fun h => absurd h hp⟩, fun pe hpe => ?_⟩
    obtain rfl : (cleanPhone phone, cleanEmail email) = pe := by
      simpa using hpe
    exact hcp

/-- Witness for `c8_contact_phone_required`: the phone `"1"` is cleaned to
`"+8801"` and accepted with an empty email. -/
theorem c8_contact_phone_required_witness :
    (['+', '8', '8', '0', '1'] : List Char) ≠ [] :=
  (c8_contact_phone_required ['1'] []).2
    (['+', '8', '8', '0', '1'], []) (by decide)

/-! ### Document upload form (`crm/forms.py`, `DocumentUploadForm`) -/

/-- Python lowercasing of a (ASCII) file name. -/
def lowerList (s : List Char) : List Char :=
  s.map Char.toLower

/-- Helper for `name.split('.')[-1]`: scans the characters keeping the
current segment in `acc` (reversed) and restarting it after every `'.'`. -/
def lastDotSegAux (acc : List Char) : List Char → List Char
  | [] => acc.reverse
  | c :: rest => if c = '.' then lastDotSegAux [] rest else lastDotSegAux (c :: acc) rest

/-- `name.split('.')[-1]`: the segment after the last dot; the whole string
when it has no dot. -/
def lastDotSeg (s : List Char) : List Char :=
  lastDotSegAux [] s

/-- The allowlist of `DocumentUploadForm.clean_file`. -/
def allowedExtensions : List (List Char) :=
  [".pdf".data, ".doc".data, ".docx".data, ".xls".data, ".xlsx".data,
   ".png".data, ".jpg".data, ".jpeg".data]

/-- `DocumentUploadForm.clean_file` (`crm/forms.py` lines 654-668): reject
(`false`) when the size exceeds 10MB, or when `'.' + name.lower().split('.')[-1]`
is not in the allowlist; otherwise accept. -/
def cleanFile (size : Nat) (name : List Char) : Bool :=
  if size > 10 * 1024 * 1024 then false
  else if ('.' :: lastDotSeg (lowerList name)) ∈ allowedExtensions then true
  else false

/-- The claim's reading of "its extension is in the allowlist": the
lowercased name ends in one of the allowed `'.ext'` strings. -/
def hasAllowedExtension (name : List Char) : Prop :=
  ∃ e ∈ allowedExtensions, e <:+ lowerList name

theorem lastDotSegAux_of_not_mem (s : List Char) :
    ∀ acc : List Char, '.' ∉ s → lastDotSegAux acc s = acc.reverse ++ s := by
  induction s with
  | nil => intro acc _; simp [lastDotSegAux]
  | cons c rest ih =>
    intro acc hmem
    have hc : c ≠ '.' := fun h => hmem (by simp [h])
    have hrest : '.' ∉ rest := fun h => hmem (by simp [h])
    rw [lastDotSegAux, if_neg (by simpa using fun h => hc h), ih _ hrest]
    simp

theorem lastDotSegAux_suffix (s : List Char) :
    ∀ acc : List Char, '.' ∈ s → ('.' :: lastDotSegAux acc s) <:+ s := by
  induction s with
  | nil => intro acc h; cases h
  | cons c rest ih =>
    intro acc hmem
    by_cases hc : c = '.'
    · subst hc
      rw [lastDotSegAux, if_pos rfl]
      by_cases hrest : '.' ∈ rest
      · exact (ih [] hrest).trans (List.suffix_cons '.' rest)
      · rw [lastDotSegAux_of_not_mem rest [] hrest]
        simp
    · have hrest : '.' ∈ rest := by
        rcases List.mem_cons.mp hmem with h | h
        · exact absurd h.symm hc
        · exact h
      rw [lastDotSegAux, if_neg (by simpa using fun h => hc h)]
      exact (ih (c :: acc) hrest).trans (List.suffix_cons c rest)

/-- C9 counterexample: a tiny file named `"pdf"` (no dot, hence no
extension) is accepted by `clean_file`, because `split('.')[-1]` of a dotless
name is the whole name, so `'.' + 'pdf'` hits the allowlist even though the
name does not end in any allowed `'.ext'`. -/
theorem c9_counterexample :
    cleanFile 10 "pdf".data = true ∧ ¬ hasAllowedExtension "pdf".data := by
  refine ⟨by decide, ?_⟩
  rintro ⟨e, he, hsuf⟩
  have hlen : e.length ≤ 3 := by simpa using hsuf.length_le
  fin_cases he <;> simp_all

/-- C9 (amended): an upload is rejected when its size exceeds 10MB or when
`'.' + ` the lowercased name's last dot-separated segment is outside the
allowlist (a dotless name is treated as though the whole name were the
extension), and accepted otherwise; for any file name that does contain a
dot, acceptance does imply that the name ends in an allowed extension. -/
theorem c9_file_validation (size : Nat) (name : List Char) :
    (size > 10 * 1024 * 1024 → cleanFile size name = false) ∧
    (('.' :: lastDotSeg (lowerList name)) ∉ allowedExtensions →
      cleanFile size name = false) ∧
    (size ≤ 10 * 1024 * 1024 → ('.' :: lastDotSeg (lowerList name)) ∈ allowedExtensions →
      cleanFile size name = true) ∧
    ('.' ∈ name → cleanFile size name = true → hasAllowedExtension name) := by
  refine ⟨fun hsz => ?_, fun hext => ?_, fun hsz hext => ?_, fun hdot hacc => ?_⟩
  · unfold cleanFile
    rw [if_pos hsz]
  · unfold cleanFile
    split_ifs <;> simp_all
  · unfold cleanFile
    rw [if_neg (by omega), if_pos hext]
  · have hmem : ('.' :: lastDotSeg (lowerList name)) ∈ allowedExtensions := by
      by_contra hne
      unfold cleanFile at hacc
      split_ifs at hacc
    have hdot' : '.' ∈ lowerList name := by
      unfold lowerList
      exact List.mem_map.mpr ⟨'.', hdot, rfl⟩
    exact ⟨'.' :: lastDotSeg (lowerList name), hmem,
      lastDotSegAux_suffix (lowerList name) [] hdot'⟩

/-- Witness for `c9_file_validation`: a 10-byte `"a.pdf"` passes. -/
theorem c9_file_validation_witness : cleanFile 10 "a.pdf".data = true :=
  (c9_file_validation 10 "a.pdf".data).2.2.1 (by decide) (by decide)

/-! ### Inventory fetch loop (`crm/services/manager_api.py`,
`_fetch_all_inventory_items`) -/

/-- One environment: the response to the request at offset `skip`.  `none`
models a falsy response or one from which no `page_items` list can be
extracted (both `break`); `some items` the extracted `page_items`. -/
def pageItems {α : Type} (o : Option (List α)) : List α :=
  o.getD []

/-- The page at offset `skip` lets the loop continue: a list was extracted,
it is non-empty, and not shorter than the page size 100. -/
def fullPage {α : Type} (o : Option (List α)) : Prop :=
  ∃ l, o = some l ∧ 100 ≤ l.length

/-- The `while iterations < max_iterations` loop of
`_fetch_all_inventory_items` (`crm/services/manager_api.py` lines 74-127),
with `fuel = max_iterations - iterations`:

    response = self._make_request('GET', 'inventory-items', params=params)
    if not response: break
    page_items = ...                      # [] also when extraction fails
    if not page_items: break
    all_items.extend(page_items)
    if len(page_items) < page_size: break
    skip += page_size
    iterations += 1

The second component counts the requests made. -/
def fetchGo {α : Type} (pages : Nat → Option (List α)) :
    Nat → Nat → List α → Nat → List α × Nat
  | 0, _, acc, nreq => (acc, nreq)
  | fuel + 1, skip, acc, nreq =>
    match pages skip with
    | none => (acc, nreq + 1)
    | some page =>
      if page.isEmpty then (acc, nreq + 1)
      else if page.length < 100 then (acc ++ page, nreq + 1)
      else fetchGo pages fuel (skip + 100) (acc ++ page) (nreq + 1)

/-- `_fetch_all_inventory_items`: `page_size = 100`, `skip = 0`,
`max_iterations = 50`. -/
def fetchAllInventoryItems {α : Type} (pages : Nat → Option (List α)) :
    List α × Nat :=
  fetchGo pages 50 0 [] 0

/-- The concatenation of the items of `k` consecutive pages starting at
offset `skip`. -/
def concatPages {α : Type} (pages : Nat → Option (List α)) :
    Nat → Nat → List α
  | _, 0 => []
  | skip, k + 1 => pageItems (pages skip) ++ concatPages pages (skip + 100) k

theorem fetchGo_req_le {α : Type} (pages : Nat → Option (List α))
    (fuel : Nat) : ∀ skip acc nreq,
    (fetchGo pages fuel skip acc nreq).2 ≤ nreq + fuel := by
  induction fuel with
  | zero => intro skip acc nreq; simp [fetchGo]
  | succ fuel ih =>
    intro skip acc nreq
    cases hpage : pages skip with
    | none =>
      have hred : fetchGo pages (fuel + 1) skip acc nreq = (acc, nreq + 1) := by
        simp [fetchGo, hpage]
      rw [hred]
      show nreq + 1 ≤ nreq + (fuel + 1)
      omega
    | some page =>
      simp only [fetchGo, hpage]
      split_ifs with h1 h2
      · show nreq + 1 ≤ nreq + (fuel + 1)
        omega
      · show nreq + 1 ≤ nreq + (fuel + 1)
        omega
      · exact le_trans (ih (skip + 100) (acc ++ page) (nreq + 1)) (by omega)

theorem fetchGo_stops {α : Type} (pages : Nat → Option (List α)) (k : Nat) :
    ∀ fuel skip acc nreq, k < fuel →
    (∀ i, i < k → fullPage (pages (skip + 100 * i))) →
    ¬ fullPage (pages (skip + 100 * k)) →
    fetchGo pages fuel skip acc nreq =
      (acc ++ concatPages pages skip (k + 1), nreq + k + 1) := by
  induction k with
  | zero =>
    intro fuel skip acc nreq hk _ hstop
    obtain ⟨fuel, rfl⟩ : ∃ f, fuel = f + 1 := ⟨fuel - 1, by omega⟩
    simp only [Nat.mul_zero, Nat.add_zero] at hstop
    cases hpage : pages skip with
    | none => simp [fetchGo, hpage, concatPages, pageItems]
    | some page =>
      have hshort : page.length < 100 := by
        by_contra hlong
        exact hstop ⟨page, hpage, by omega⟩
      by_cases hemp : page.isEmpty
      · have : page = [] := by simpa [List.isEmpty_iff] using hemp
        subst this
        simp [fetchGo, hpage, concatPages, pageItems]
      · simp [fetchGo, hpage, hemp, hshort, concatPages, pageItems]
  | succ k ih =>
    intro fuel skip acc nreq hk hfull hstop
    obtain ⟨fuel, rfl⟩ : ∃ f, fuel = f + 1 := ⟨fuel - 1, by omega⟩
    obtain ⟨page, hpage, hlen⟩ := hfull 0 (by omega)
    rw [Nat.mul_zero, Nat.add_zero] at hpage
    have hemp : page.isEmpty = false := by
      cases page with
      | nil => simp at hlen
      | cons a t => simp [List.isEmpty]
    have hnl : ¬ page.length < 100 := by omega
    have hrec : fetchGo pages (fuel + 1) skip acc nreq =
        fetchGo pages fuel (skip + 100) (acc ++ page) (nreq + 1) := by
      simp [fetchGo, hpage, hemp, hnl]
    rw [hrec, ih fuel (skip + 100) (acc ++ page) (nreq + 1) (by omega)
      (fun i hi => by
        have := hfull (i + 1) (by omega)
        rwa [show skip + 100 * (i + 1) = skip + 100 + 100 * i by ring] at this)
      (by rwa [show skip + 100 + 100 * k = skip + 100 * (k + 1) by ring])]
    simp [concatPages, pageItems, hpage, Nat.add_assoc, Nat.add_comm, Nat.add_left_comm]

theorem fetchGo_all_full {α : Type} (pages : Nat → Option (List α))
    (fuel : Nat) : ∀ skip acc nreq,
    (∀ i, i < fuel → fullPage (pages (skip + 100 * i))) →
    fetchGo pages fuel skip acc nreq =
      (acc ++ concatPages pages skip fuel, nreq + fuel) := by
  induction fuel with
  | zero => intro skip acc nreq _; simp [fetchGo, concatPages]
  | succ fuel ih =>
    intro skip acc nreq hfull
    obtain ⟨page, hpage, hlen⟩ := hfull 0 (by omega)
    rw [Nat.mul_zero, Nat.add_zero] at hpage
    have hemp : page.isEmpty = false := by
      cases page with
      | nil => simp at hlen
      | cons a t => simp [List.isEmpty]
    have hnl : ¬ page.length < 100 := by omega
    have hrec : fetchGo pages (fuel + 1) skip acc nreq =
        fetchGo pages fuel (skip + 100) (acc ++ page) (nreq + 1) := by
      simp [fetchGo, hpage, hemp, hnl]
    rw [hrec, ih (skip + 100) (acc ++ page) (nreq + 1)
      (fun i hi => by
        have := hfull (i + 1) (by omega)
        rwa [show skip + 100 * (i + 1) = skip + 100 + 100 * i by ring] at this)]
    simp [concatPages, pageItems, hpage, Nat.add_assoc, Nat.add_comm, Nat.add_left_comm]

/-- C5: for every sequence of page responses, the fetch loop makes at most
50 requests (the iteration cap); if the first non-continuing page (empty,
short, or unreadable) is at index `k < 50` then the loop stops right after
requesting it and returns the concatenation of the pages fetched up to and
including it; and if all 50 pages are full the loop stops at the cap with
the concatenation of those 50 pages. -/
theorem c5_fetch_loop (pages : Nat → Option (List Nat)) :
    (fetchAllInventoryItems pages).2 ≤ 50 ∧
    (∀ k, k < 50 → (∀ i, i < k → fullPage (pages (100 * i))) →
      ¬ fullPage (pages (100 * k)) →
      fetchAllInventoryItems pages = (concatPages pages 0 (k + 1), k + 1)) ∧
    ((∀ i, i < 50 → fullPage (pages (100 * i))) →
      fetchAllInventoryItems pages = (concatPages pages 0 50, 50)) := by
  refine ⟨by simpa using fetchGo_req_le pages 50 0 [] 0, fun k hk hfull hstop => ?_,
    fun hfull => ?_⟩
  · have := fetchGo_stops pages k 50 0 [] 0 hk
      (fun i hi => by simpa using hfull i hi) (by simpa using hstop)
    simpa [fetchAllInventoryItems] using this
  · have := fetchGo_all_full pages 50 0 [] 0 (fun i hi => by simpa using hfull i hi)
    simpa [fetchAllInventoryItems] using this

/-- Witness for `c5_fetch_loop`: when the very first response is an empty
page the loop returns no items after one request. -/
theorem c5_fetch_loop_witness :
    fetchAllInventoryItems (fun _ => some ([] : List Nat)) = ([], 1) :=
  (c5_fetch_loop (fun _ => some [])).2.1 0 (by omega) (fun i hi => absurd hi (by omega))
    (by rintro ⟨l, hl, hlen⟩; cases hl; simp at hlen)

/-! ### Product sync (`crm/services/manager_api.py`, `sync_products` and
`_get_or_create_category`) -/

/-- Python `str.upper()` (the item codes are ASCII). -/
def upperL (s : List Char) : List Char :=
  s.map Char.toUpper

/-- Python substring containment `needle in hay` (`'' in s` is `True`). -/
def substr (needle : List Char) : List Char → Bool
  | [] => needle.isEmpty
  | c :: rest => needle.isPrefixOf (c :: rest) || substr needle rest

/-- The candidate prefixes of the brand check in `sync_products`
(line 182). -/
def mitsubishiPrefixes : List (List Char) :=
  ["FX".data, "MR".data, "QY".data, "QX".data, "FR-".data]

/-- The brand check of `sync_products` (lines 177-184):

    if any(prefix in item_code.upper() for prefix in
           ['FX', 'MR', 'QY', 'QX', 'FR-']):

Note this is substring containment, not `startswith`. -/
def isMitsubishiCode (code : List Char) : Bool :=
  mitsubishiPrefixes.any (fun p => substr p (upperL code))

/-- `_get_or_create_category` (lines 262-296), returning the
`ProductCategory.code` it resolves to. -/
def categoryCode (code : List Char) : List Char :=
  let cu := upperL code
  if "FX".data.isPrefixOf cu || "Q".data.isPrefixOf cu then "PLC".data
  else if "FR-".data.isPrefixOf cu then "VFD".data
  else if "MR-".data.isPrefixOf cu || substr "SERVO".data cu then "SERVO".data
  else if "GOT".data.isPrefixOf cu || substr "HMI".data cu then "HMI".data
  else "OTHER".data

/-- The claim's brand rule, following the spec words "the code starts with
one of FX, MR, QY, QX, FR-". -/
def specMitsubishi (code : List Char) : Bool :=
  mitsubishiPrefixes.any (fun p => p.isPrefixOf (upperL code))

/-- The claim's category rule, following the spec words "PLC for FX/Q
prefixes, VFD for FR-, SERVO for MR-, HMI for GOT, else OTHER". -/
def specCategory (code : List Char) : List Char :=
  let cu := upperL code
  if "FX".data.isPrefixOf cu || "Q".data.isPrefixOf cu then "PLC".data
  else if "FR-".data.isPrefixOf cu then "VFD".data
  else if "MR-".data.isPrefixOf cu then "SERVO".data
  else if "GOT".data.isPrefixOf cu then "HMI".data
  else "OTHER".data

/-- A fetched Manager.io inventory record, after field extraction:
`mid = item.get('id') or item.get('Key')` (`[]` = falsy/missing),
`code = item.get('ItemCode') or item.get('Code', '')`, `price` the result of
`_extract_sales_price`, `qty` the truncated `_safe_decimal` quantity. -/
structure RawItem where
  mid : List Char
  code : List Char
  name : List Char
  description : List Char
  price : ℚ
  qty : Int
deriving DecidableEq, Repr

/-- A local `Product` row, restricted to the fields `sync_products`
writes.  `isMitsubishiBrand` records which of the two brands
(`Mitsubishi Electric` vs `Manager.io Import`) the FK points at. -/
structure ProductRec where
  sku : List Char
  name : List Char
  isMitsubishiBrand : Bool
  model : List Char
  category : List Char
  description : List Char
  price : ℚ
  stock_quantity : Int
  is_active : Bool
  is_from_api : Bool
  mitsubishi_api_id : List Char
deriving DecidableEq, Repr

/-- The `product_data` dict built in `sync_products` (lines 195-208). -/
def productData (it : RawItem) : ProductRec :=
  { sku := it.code, name := it.name, isMitsubishiBrand := isMitsubishiCode it.code,
    model := it.code, category := categoryCode it.code,
    description := it.description, price := it.price, stock_quantity := it.qty,
    is_active := true, is_from_api := true, mitsubishi_api_id := it.mid }

/-- `Product.objects.update_or_create(sku=item_code, defaults=product_data)`:
update the row with that `sku` when one exists, insert otherwise; the Bool
is Django's `created` flag. -/
def upsertBySku (db : List ProductRec) (p : ProductRec) : List ProductRec × Bool :=
  if db.any (fun r => r.sku == p.sku) then
    (db.map (fun r => if r.sku == p.sku then p else r), false)
  else (db ++ [p], true)

/-- The running state of `sync_products`: the product table and the
`created_count` / `updated_count` counters. -/
structure SyncState where
  db : List ProductRec
  created : Nat
  updated : Nat
deriving DecidableEq, Repr

/-- The per-item body of the `for item in all_items:` loop of
`sync_products` (lines 167-223).  `fails` is the environment oracle saying
whether the item's processing raises an exception (network/database errors);
the `except ... continue` handler then leaves the state unchanged.  A
missing id or code hits the `continue` at line 176. -/
def processItem (fails : List ProductRec → RawItem → Bool)
    (s : SyncState) (it : RawItem) : SyncState :=
  if fails s.db it then s
  else if it.mid = [] ∨ it.code = [] then s
  else
    let r := upsertBySku s.db (productData it)
    if r.2 then { db := r.1, created := s.created + 1, updated := s.updated }
    else { db := r.1, created := s.created, updated := s.updated + 1 }

/-- The whole sync loop over the fetched items. -/
def syncProducts (fails : List ProductRec → RawItem → Bool)
    (items : List RawItem) (s0 : SyncState) : SyncState :=
  items.foldl (processItem fails) s0

/-- C6 counterexample: the code `"ABFX"` contains `FX` but does not start
with any of the five prefixes, so `sync_products` files it under the
Mitsubishi brand while the claim's prefix rule says it is not Mitsubishi;
and the code `"XSERVO"` has none of the listed prefixes (claim: category
`OTHER`) yet `_get_or_create_category` returns `SERVO` because it also
matches `'SERVO' in code`. -/
theorem c6_counterexample :
    isMitsubishiCode "ABFX".data = true ∧ specMitsubishi "ABFX".data = false ∧
    categoryCode "XSERVO".data = "SERVO".data ∧
    specCategory "XSERVO".data = "OTHER".data := by
  refine ⟨by decide, by decide, by decide, by decide⟩

theorem upsert_filter_key (db : List ProductRec) (p : ProductRec)
    (hlen : (db.filter (fun r => r.sku == p.sku)).length ≤ 1) :
    (upsertBySku db p).1.filter (fun r => r.sku == p.sku) = [p] := by
  unfold upsertBySku
  by_cases hany : db.any (fun r => r.sku == p.sku) = true
  · rw [if_pos hany]
    have hcomm : (db.map (fun r => if r.sku == p.sku then p else r)).filter
        (fun r => r.sku == p.sku) =
        (db.filter (fun r => r.sku == p.sku)).map
          (fun r => if r.sku == p.sku then p else r) := by
      rw [List.filter_map]
      congr 1
      apply List.filter_congr
      intro r _
      by_cases hr : (r.sku == p.sku) = true
      · simp [Function.comp, hr]
      · simp only [Function.comp]
        rw [if_neg hr]
    obtain ⟨r0, hr0⟩ : ∃ r0, db.filter (fun r => r.sku == p.sku) = [r0] := by
      rw [← List.length_eq_one]
      obtain ⟨a, ha, hpa⟩ := List.any_eq_true.mp hany
      have : a ∈ db.filter (fun r => r.sku == p.sku) := List.mem_filter.mpr ⟨ha, hpa⟩
      have hpos : 0 < (db.filter (fun r => r.sku == p.sku)).length :=
        List.length_pos.mpr (List.ne_nil_of_mem this)
      omega
    have hr0key : (r0.sku == p.sku) = true := by
      have : r0 ∈ db.filter (fun r => r.sku == p.sku) := by rw [hr0]; simp
      exact (List.mem_filter.mp this).2
    rw [hcomm, hr0]
    show List.map (fun r => if r.sku == p.sku then p else r) [r0] = [p]
    simp only [List.map_cons, List.map_nil]
    rw [if_pos hr0key]
  · rw [if_neg hany]
    rw [List.filter_append]
    have h1 : db.filter (fun r => r.sku == p.sku) = [] := by
      rw [List.filter_eq_nil_iff]
      intro a ha hpa
      exact hany (List.any_eq_true.mpr ⟨a, ha, hpa⟩)
    rw [h1]
    simp

theorem upsert_filter_ne (db : List ProductRec) (p : ProductRec) :
    (upsertBySku db p).1.filter (fun r => !(r.sku == p.sku)) =
      db.filter (fun r => !(r.sku == p.sku)) := by
  unfold upsertBySku
  split_ifs with hany
  · rw [List.filter_map]
    have hfc : db.filter
        ((fun r => !(r.sku == p.sku)) ∘ fun r => if r.sku == p.sku then p else r) =
        db.filter (fun r => !(r.sku == p.sku)) := by
      apply List.filter_congr
      intro r _
      by_cases hr : (r.sku == p.sku) = true
      · simp only [Function.comp]
        rw [if_pos hr, hr]
        simp
      · simp only [Function.comp]
        rw [if_neg hr]
    rw [hfc]
    have hid : ∀ r ∈ db.filter (fun r => !(r.sku == p.sku)),
        (if r.sku == p.sku then p else r) = r := by
      intro r hr
      have hne := (List.mem_filter.mp hr).2
      rw [if_neg (by simpa using hne)]
    rw [List.map_congr_left hid]
    simp
  · rw [List.filter_append]
    simp

/-- C6 (amended): for every fetched record with a non-empty identifier and a
non-empty code whose processing raises no exception, the sync classifies it
by substring/prefix heuristics on its uppercased code — Mitsubishi brand
exactly when the code **contains** one of FX, MR, QY, QX, FR-; category PLC
for FX/Q prefixes, VFD for FR-, SERVO for MR- prefix or codes containing
SERVO, HMI for GOT prefix or codes containing HMI, else OTHER — and upserts
exactly one local record keyed by that code as its `sku`, leaving rows with
other `sku`s untouched and counting the item as created or updated. -/
theorem c6_classify_upsert (fails : List ProductRec → RawItem → Bool)
    (s : SyncState) (it : RawItem)
    (hmid : it.mid ≠ []) (hcode : it.code ≠ [])
    (hnofail : fails s.db it = false)
    (hkey : (s.db.filter (fun r => r.sku == it.code)).length ≤ 1) :
    (processItem fails s it).db.filter (fun r => r.sku == it.code) =
        [productData it] ∧
    (processItem fails s it).db.filter (fun r => !(r.sku == it.code)) =
        s.db.filter (fun r => !(r.sku == it.code)) ∧
    (productData it).isMitsubishiBrand = isMitsubishiCode it.code ∧
    (productData it).category = categoryCode it.code ∧
    (processItem fails s it).created + (processItem fails s it).updated =
        s.created + s.updated + 1 := by
  have hsku : (productData it).sku = it.code := rfl
  have hbranch : processItem fails s it =
      (if (upsertBySku s.db (productData it)).2 then
        { db := (upsertBySku s.db (productData it)).1, created := s.created + 1,
          updated := s.updated }
      else
        { db := (upsertBySku s.db (productData it)).1, created := s.created,
          updated := s.updated + 1 }) := by
    unfold processItem
    rw [if_neg (by simp [hnofail]), if_neg (by simp [hmid, hcode])]
  have hk : (upsertBySku s.db (productData it)).1.filter
      (fun r => r.sku == it.code) = [productData it] := by
    have := upsert_filter_key s.db (productData it) (by rw [hsku]; exact hkey)
    rwa [hsku] at this
  have hn : (upsertBySku s.db (productData it)).1.filter
      (fun r => !(r.sku == it.code)) =
      s.db.filter (fun r => !(r.sku == it.code)) := by
    have := upsert_filter_ne s.db (productData it)
    rwa [hsku] at this
  rw [hbranch]
  split_ifs
  · refine ⟨hk, hn, rfl, rfl, ?_⟩
    show s.created + 1 + s.updated = s.created + s.updated + 1
    omega
  · refine ⟨hk, hn, rfl, rfl, ?_⟩
    show s.created + (s.updated + 1) = s.created + s.updated + 1
    omega

/-- Witness for `c6_classify_upsert`: the item `FX5U` (a Mitsubishi PLC
code) inserted into an empty table. -/
def w6Item : RawItem :=
  { mid := "k1".data, code := "FX5U".data, name := "PLC".data,
    description := [], price := 0, qty := 0 }

/-- Witness for `c6_classify_upsert` at `w6Item` and the empty state. -/
theorem c6_classify_upsert_witness :
    (processItem (fun _ _ => false) ⟨[], 0, 0⟩ w6Item).db.filter
        (fun r => r.sku == w6Item.code) = [productData w6Item] :=
  (c6_classify_upsert (fun _ _ => false) ⟨[], 0, 0⟩ w6Item (by decide) (by decide)
    rfl (by decide)).1

/-- C7: if processing one item raises an error (the oracle `fails` fires on
it in the state reached at that point), the sync skips that item — the final
state, including both counters, is exactly the state obtained by running the
loop on the list with that item removed, so every later item is still
processed. -/
theorem c7_failed_item_skipped (fails : List ProductRec → RawItem → Bool)
    (pre post : List RawItem) (bad : RawItem) (s0 : SyncState)
    (hfail : fails (syncProducts fails pre s0).db bad = true) :
    syncProducts fails (pre ++ bad :: post) s0 =
      syncProducts fails (pre ++ post) s0 := by
  have hskip : ∀ s : SyncState, fails s.db bad = true → processItem fails s bad = s := by
    intro s hs
    unfold processItem
    rw [if_pos hs]
  unfold syncProducts at hfail ⊢
  rw [List.foldl_append, List.foldl_append, List.foldl_cons,
    hskip (List.foldl (processItem fails) s0 pre) hfail]

/-- Witness for `c7_failed_item_skipped`: with an oracle that fails exactly
on the code `"X"`, the item `"X"` is skipped and the following item is still
processed. -/
def w7Fails : List ProductRec → RawItem → Bool :=
  fun _ it => it.code == "X".data

/-- The bad item for the C7 witness. -/
def w7Bad : RawItem :=
  { mid := "b".data, code := "X".data, name := [], description := [],
    price := 0, qty := 0 }

/-- Witness for `c7_failed_item_skipped` at a concrete item list. -/
theorem c7_failed_item_skipped_witness :
    syncProducts w7Fails ([] ++ w7Bad :: [w6Item]) ⟨[], 0, 0⟩ =
      syncProducts w7Fails ([] ++ [w6Item]) ⟨[], 0, 0⟩ :=
  c7_failed_item_skipped w7Fails [] [w6Item] w7Bad ⟨[], 0, 0⟩ (by decide)

/-! ### Contact employment history (`crm/models.py` `ContactCompanyHistory`,
`crm/signals.py` `contact_company_history_post_save`, `crm/views.py`
`ContactUpdateView.form_valid`) -/

/-- A `ContactCompanyHistory` row; foreign keys are primary keys. -/
structure CCHRow where
  rid : Nat
  contact : Nat
  company : Nat
  designation : Option Nat
  is_current : Bool
  start_date : Option Nat
  end_date : Option Nat
deriving DecidableEq, Repr

/-- The fields of a `Contact` row that the history signal writes. -/
structure ContactRec where
  cid : Nat
  current_company : Option Nat
  designation : Option Nat
deriving DecidableEq, Repr

/-- The history table and the contact table. -/
structure CrmDb where
  rows : List CCHRow
  contacts : List ContactRec
deriving DecidableEq, Repr

/-- A Django model `save` on the history table: UPDATE the row with this
primary key when it exists, INSERT otherwise. -/
def upsertRow (rows : List CCHRow) (row : CCHRow) : List CCHRow :=
  if rows.any (fun r => r.rid == row.rid) then
    rows.map (fun r => if r.rid == row.rid then row else r)
  else row :: rows

/-- `contact_company_history_post_save` (`crm/signals.py` lines 174-186):

    if instance.is_current:
        ContactCompanyHistory.objects.filter(contact=instance.contact)
            .exclude(pk=instance.pk).update(is_current=False)
        instance.contact.current_company = instance.company
        instance.contact.designation = instance.designation
        instance.contact.save()
-/
def cchPostSave (db : CrmDb) (row : CCHRow) : CrmDb :=
  if row.is_current then
    { rows := db.rows.map (fun r =>
        if r.contact == row.contact && r.rid != row.rid then
          { r with is_current := false }
        else r),
      contacts := db.contacts.map (fun ct =>
        if ct.cid == row.contact then
          { ct with current_company := some row.company,
                    designation := row.designation }
        else ct) }
  else db

/-- A create or update of a history row: the model save followed by the
`post_save` signal. -/
def saveRow (db : CrmDb) (row : CCHRow) : CrmDb :=
  cchPostSave { db with rows := upsertRow db.rows row } row

/-- The `ContactCompanyHistory.objects.filter(contact=..., company=old,
is_current=True).update(is_current=False, end_date=...)` bulk update of
`ContactUpdateView.form_valid`; a queryset `.update` fires no signal. -/
def endOldEmployment (db : CrmDb) (contact oc today : Nat) : CrmDb :=
  { db with rows := db.rows.map (fun r =>
      if r.contact == contact && r.company == oc && r.is_current then
        { r with is_current := false, end_date := some today }
      else r) }

/-- The company-change branch of `ContactUpdateView.form_valid`
(`crm/views.py` lines 252-283): when the company changed, end the current
employment rows at the old company via a bulk `.update(...)` and `create` a
new current row (a model save, so the signal runs). -/
def viewChangeCompany (db : CrmDb) (contact : Nat)
    (oldCompany newCompany : Option Nat) (designation : Option Nat)
    (newRid : Nat) (today : Nat) : CrmDb :=
  if oldCompany ≠ newCompany then
    let db1 :=
      match oldCompany with
      | some oc => endOldEmployment db contact oc today
      | none => db
    match newCompany with
    | some nc =>
      saveRow db1
        { rid := newRid, contact := contact, company := nc,
          designation := designation, is_current := true,
          start_date := some today, end_date := none }
    | none => db1
  else db

/-- The operations that touch the history table. -/
inductive HistOp where
  | save (row : CCHRow)
  | changeCompany (contact : Nat) (oldCompany newCompany : Option Nat)
      (designation : Option Nat) (newRid : Nat) (today : Nat)
deriving Repr

def applyHistOp (db : CrmDb) : HistOp → CrmDb
  | .save row => saveRow db row
  | .changeCompany c oc nc d rid t => viewChangeCompany db c oc nc d rid t

def runHistOps (ops : List HistOp) (db : CrmDb) : CrmDb :=
  ops.foldl applyHistOp db

/-- Number of history rows of contact `c` flagged current. -/
def currentCount (rows : List CCHRow) (c : Nat) : Nat :=
  rows.countP (fun r => r.contact == c && r.is_current)

/-- The claimed invariant: at most one current row per contact. -/
def atMostOneCurrent (db : CrmDb) : Prop :=
  ∀ c, currentCount db.rows c ≤ 1

/-- Database well-formedness: primary keys are unique. -/
def ridsNodup (db : CrmDb) : Prop :=
  (db.rows.map (fun r => r.rid)).Nodup


theorem countP_le_one_of_rid (rid0 : Nat) (p : CCHRow → Bool) :
    ∀ rows : List CCHRow, (∀ r ∈ rows, p r = true → r.rid = rid0) →
    (rows.map (fun r => r.rid)).Nodup → rows.countP p ≤ 1 := by
  intro rows
  induction rows with
  | nil => intro _ _; simp
  | cons r rows ih =>
    intro hp hnd
    rw [List.map_cons, List.nodup_cons] at hnd
    rw [List.countP_cons]
    by_cases hpr : p r = true
    · have hzero : rows.countP p = 0 := by
        apply List.countP_eq_zero.mpr
        intro a ha hpa
        have hmem : a.rid ∈ rows.map (fun r => r.rid) := List.mem_map.mpr ⟨a, ha, rfl⟩
        rw [hp a (List.mem_cons_of_mem r ha) hpa,
          ← hp r (List.mem_cons_self r rows) hpr] at hmem
        exact hnd.1 hmem
      simp [hpr, hzero]
    · have hle := ih (fun a ha hpa => hp a (List.mem_cons_of_mem r ha) hpa) hnd.2
      simp only [Bool.not_eq_true] at hpr
      simpa [hpr] using hle

theorem countP_map_le (f : CCHRow → CCHRow) (p : CCHRow → Bool) (l : List CCHRow)
    (h : ∀ r ∈ l, p (f r) = true → p r = true) :
    (l.map f).countP p ≤ l.countP p := by
  rw [List.countP_map]
  exact List.countP_mono_left (fun a ha hpa => h a ha hpa)

theorem countP_map_eq (f : CCHRow → CCHRow) (p : CCHRow → Bool) :
    ∀ l : List CCHRow, (∀ r ∈ l, p (f r) = p r) →
    (l.map f).countP p = l.countP p := by
  intro l
  induction l with
  | nil => intro _; rfl
  | cons a l ih =>
    intro h
    rw [List.map_cons, List.countP_cons, List.countP_cons,
      h a (List.mem_cons_self a l), ih (fun r hr => h r (List.mem_cons_of_mem a hr))]

theorem countP_upsert_le (rows : List CCHRow) (row : CCHRow) (p : CCHRow → Bool)
    (hrow : p row = false) :
    (upsertRow rows row).countP p ≤ rows.countP p := by
  unfold upsertRow
  split_ifs with hany
  · apply countP_map_le
    intro r _ hpr
    by_cases hr : (r.rid == row.rid) = true
    · rw [if_pos hr, hrow] at hpr
      cases hpr
    · rwa [if_neg hr] at hpr
  · rw [List.countP_cons]
    simp [hrow]

theorem upsertRow_rids_nodup (rows : List CCHRow) (row : CCHRow)
    (h : (rows.map (fun r => r.rid)).Nodup) :
    ((upsertRow rows row).map (fun r => r.rid)).Nodup := by
  unfold upsertRow
  split_ifs with hany
  · rw [List.map_map]
    have heq : rows.map ((fun r => r.rid) ∘ fun r => if r.rid == row.rid then row else r) =
        rows.map (fun r => r.rid) := by
      apply List.map_congr_left
      intro r _
      by_cases hr : (r.rid == row.rid) = true
      · simp only [Function.comp]
        rw [if_pos hr]
        exact (beq_iff_eq.mp hr).symm
      · simp only [Function.comp]
        rw [if_neg hr]
    rwa [heq]
  · rw [List.map_cons]
    refine List.nodup_cons.mpr ⟨?_, h⟩
    intro hmem
    obtain ⟨r, hr, hrid⟩ := List.mem_map.mp hmem
    exact hany (List.any_eq_true.mpr ⟨r, hr, by simp [hrid]⟩)

theorem clear_rids (rows : List CCHRow) (f : CCHRow → CCHRow)
    (hf : ∀ r, (f r).rid = r.rid) :
    ((rows.map f).map (fun r => r.rid)) = rows.map (fun r => r.rid) := by
  rw [List.map_map]
  apply List.map_congr_left
  intro r _
  exact hf r

/-- A history-row save (model save plus `post_save` signal) keeps primary
keys unique and the per-contact current count at most one. -/
theorem saveRow_preserves (db : CrmDb) (row : CCHRow)
    (hnd : ridsNodup db) (hinv : atMostOneCurrent db) :
    ridsNodup (saveRow db row) ∧ atMostOneCurrent (saveRow db row) := by
  have hund : ((upsertRow db.rows row).map (fun r => r.rid)).Nodup :=
    upsertRow_rids_nodup db.rows row hnd
  by_cases hcur : row.is_current = true
  · have hrows : (saveRow db row).rows = (upsertRow db.rows row).map (fun r =>
        if r.contact == row.contact && r.rid != row.rid then
          { r with is_current := false }
        else r) := by
      unfold saveRow cchPostSave
      rw [if_pos hcur]
    constructor
    · show ((saveRow db row).rows.map (fun r => r.rid)).Nodup
      rw [hrows, clear_rids _ _ (fun r => by split_ifs <;> rfl)]
      exact hund
    · intro c
      unfold currentCount
      rw [hrows]
      by_cases hc : c = row.contact
      · subst hc
        apply countP_le_one_of_rid row.rid
        · intro r hr hpr
          obtain ⟨r0, hr0, rfl⟩ := List.mem_map.mp hr
          by_cases hcond : (r0.contact == row.contact && r0.rid != row.rid) = true
          · rw [if_pos hcond] at hpr
            simp at hpr
          · rw [if_neg hcond] at hpr ⊢
            rw [Bool.and_eq_true] at hpr
            obtain ⟨h1, h2⟩ := hpr
            have h3 : (r0.rid != row.rid) = false := by
              by_contra hne
              rw [Bool.not_eq_false] at hne
              exact hcond (by simp [h1, hne])
            simpa [bne] using h3
        · rw [clear_rids _ _ (fun r => by split_ifs <;> rfl)]
          exact hund
      · have heq : ((upsertRow db.rows row).map (fun r =>
            if r.contact == row.contact && r.rid != row.rid then
              { r with is_current := false }
            else r)).countP (fun r => r.contact == c && r.is_current) =
            (upsertRow db.rows row).countP (fun r => r.contact == c && r.is_current) := by
          apply countP_map_eq
          intro r _
          by_cases hcond : (r.contact == row.contact && r.rid != row.rid) = true
          · rw [if_pos hcond]
            rw [Bool.and_eq_true] at hcond
            obtain ⟨h1, -⟩ := hcond
            have : (r.contact == c) = false := by
              rw [beq_iff_eq.mp h1]
              exact beq_eq_false_iff_ne.mpr (fun h => hc h.symm)
            simp [this]
          · rw [if_neg hcond]
        rw [heq]
        calc (upsertRow db.rows row).countP (fun r => r.contact == c && r.is_current)
            ≤ db.rows.countP (fun r => r.contact == c && r.is_current) := by
              apply countP_upsert_le
              have : (row.contact == c) = false :=
                beq_eq_false_iff_ne.mpr (fun h => hc h.symm)
              simp [this]
          _ ≤ 1 := hinv c
  · have hsr : saveRow db row = { db with rows := upsertRow db.rows row } := by
      unfold saveRow cchPostSave
      rw [if_neg hcur]
    rw [hsr]
    refine ⟨hund, fun c => ?_⟩
    have hfalse : row.is_current = false := by simpa using hcur
    calc (upsertRow db.rows row).countP (fun r => r.contact == c && r.is_current)
        ≤ db.rows.countP (fun r => r.contact == c && r.is_current) := by
          apply countP_upsert_le
          simp [hfalse]
      _ ≤ 1 := hinv c

/-- The bulk `.update(is_current=False, end_date=...)` of the view keeps
both invariants. -/
theorem endOldEmployment_preserves (db : CrmDb) (c oc t : Nat)
    (hnd : ridsNodup db) (hinv : atMostOneCurrent db) :
    ridsNodup (endOldEmployment db c oc t) ∧
    atMostOneCurrent (endOldEmployment db c oc t) := by
  constructor
  · show (((endOldEmployment db c oc t).rows).map (fun r => r.rid)).Nodup
    unfold endOldEmployment
    rw [clear_rids _ _ (fun r => by split_ifs <;> rfl)]
    exact hnd
  · intro c'
    unfold currentCount endOldEmployment
    calc (db.rows.map (fun r =>
          if r.contact == c && r.company == oc && r.is_current then
            { r with is_current := false, end_date := some t }
          else r)).countP (fun r => r.contact == c' && r.is_current)
        ≤ db.rows.countP (fun r => r.contact == c' && r.is_current) := by
          apply countP_map_le
          intro r _ hpr
          by_cases hcond : (r.contact == c && r.company == oc && r.is_current) = true
          · rw [if_pos hcond] at hpr
            simp at hpr
          · rwa [if_neg hcond] at hpr
      _ ≤ 1 := hinv c'

theorem viewChange_preserves (db : CrmDb) (c : Nat) (oc nc : Option Nat)
    (d : Option Nat) (rid t : Nat)
    (hnd : ridsNodup db) (hinv : atMostOneCurrent db) :
    ridsNodup (viewChangeCompany db c oc nc d rid t) ∧
    atMostOneCurrent (viewChangeCompany db c oc nc d rid t) := by
  unfold viewChangeCompany
  split_ifs with hne
  · cases oc with
    | none =>
      cases nc with
      | none => exact ⟨hnd, hinv⟩
      | some ncv => exact saveRow_preserves db _ hnd hinv
    | some ocv =>
      have h1 := endOldEmployment_preserves db c ocv t hnd hinv
      cases nc with
      | none => exact h1
      | some ncv => exact saveRow_preserves _ _ h1.1 h1.2
  · exact ⟨hnd, hinv⟩

theorem applyHistOp_preserves (db : CrmDb) (op : HistOp)
    (hnd : ridsNodup db) (hinv : atMostOneCurrent db) :
    ridsNodup (applyHistOp db op) ∧ atMostOneCurrent (applyHistOp db op) := by
  cases op with
  | save row => exact saveRow_preserves db row hnd hinv
  | changeCompany c oc nc d rid t => exact viewChange_preserves db c oc nc d rid t hnd hinv

theorem runHistOps_preserves (ops : List HistOp) :
    ∀ db : CrmDb, ridsNodup db → atMostOneCurrent db →
    ridsNodup (runHistOps ops db) ∧ atMostOneCurrent (runHistOps ops db) := by
  induction ops with
  | nil => exact fun db h1 h2 => ⟨h1, h2⟩
  | cons op ops ih =>
    intro db h1 h2
    have h := applyHistOp_preserves db op h1 h2
    simpa [runHistOps, List.foldl_cons] using ih (applyHistOp db op) h.1 h.2

/-- C3: starting from an empty history table, after any sequence of history
creates/updates (model saves with their `post_save` signal, and the
contact-update view's company changes), at most one history row per contact
has `is_current = true`. -/
theorem c3_at_most_one_current (ops : List HistOp) (contacts0 : List ContactRec) :
    atMostOneCurrent (runHistOps ops { rows := [], contacts := contacts0 }) :=
  (runHistOps_preserves ops { rows := [], contacts := contacts0 }
    (by simp [ridsNodup]) (fun c => by simp [currentCount])).2

/-- A concrete current history row, for witnesses. -/
def w10Row : CCHRow :=
  { rid := 1, contact := 1, company := 5, designation := some 2,
    is_current := true, start_date := none, end_date := none }

/-- Witness for `c3_at_most_one_current` with a single save. -/
theorem c3_at_most_one_current_witness :
    currentCount (runHistOps [HistOp.save w10Row]
      { rows := [], contacts := [] }).rows 1 ≤ 1 :=
  c3_at_most_one_current [HistOp.save w10Row] [] 1

/-- C10: after any save of a history row flagged current, the owning
contact's `current_company` equals the row's company and its `designation`
equals the row's designation. -/
theorem c10_contact_company_updated (db : CrmDb) (row : CCHRow)
    (hcur : row.is_current = true) :
    ∀ ct ∈ (saveRow db row).contacts, ct.cid = row.contact →
      ct.current_company = some row.company ∧
      ct.designation = row.designation := by
  intro ct hct hcid
  have hcts : (saveRow db row).contacts = db.contacts.map (fun ct =>
      if ct.cid == row.contact then
        { ct with current_company := some row.company,
                  designation := row.designation }
      else ct) := by
    unfold saveRow cchPostSave
    rw [if_pos hcur]
  rw [hcts] at hct
  obtain ⟨ct0, hct0, rfl⟩ := List.mem_map.mp hct
  by_cases h0 : (ct0.cid == row.contact) = true
  · rw [if_pos h0]
    exact ⟨rfl, rfl⟩
  · rw [if_neg h0] at hcid
    exact absurd (beq_iff_eq.mpr hcid) h0

/-- The database for the C10 witness: one contact, no history yet. -/
def w10Db : CrmDb :=
  { rows := [], contacts := [{ cid := 1, current_company := none, designation := none }] }

/-- Witness for `c10_contact_company_updated` at `w10Db` and `w10Row`. -/
theorem c10_contact_company_updated_witness :
    ({ cid := 1, current_company := some 5, designation := some 2 } :
        ContactRec).current_company = some w10Row.company ∧
    ({ cid := 1, current_company := some 5, designation := some 2 } :
        ContactRec).designation = w10Row.designation :=
  c10_contact_company_updated w10Db w10Row rfl
    { cid := 1, current_company := some 5, designation := some 2 }
    (by decide) rfl

end SislCrm
